import Mathlib

/-!
Shallow embedding of the `rss-data` repository (scripts/rss_fetcher.py and
scripts/export_jsonl.py) together with proofs about its specification.

Strings are modelled as Lean `String`s / `List Char`; Python `None` is
modelled with `Option`.  Python's regular-expression substitutions used by
the two summary cleaners only involve case-insensitive literals, bounded
`[\s\S]{0,200}` tails, `\s*\w+`, `<[^>]+>` and `\s+`; each of those is
embedded as a dedicated matcher (a function returning how many characters a
match starting at the current position consumes) driven by a generic
left-to-right scan-and-replace loop, which is exactly `re.sub`'s behaviour
for patterns that cannot match the empty string.  Character classes and
case folding are modelled over ASCII (the classes additionally treat
U+00A0 as whitespace, as Python's str.strip and `\s` do).
-/

namespace RssData

/-- Whitespace test modelling Python's `\s` class / `str.strip` on the
characters that occur in this development (ASCII whitespace plus NBSP). -/
def isWs (c : Char) : Bool :=
  c = ' ' || c = '\t' || c = '\n' || c = '\r' || c = '\x0b' || c = '\x0c' || c = ' '

/-- Word-character test modelling Python's `\w` class (ASCII part). -/
def isWordChar (c : Char) : Bool :=
  ('a' ≤ c && c ≤ 'z') || ('A' ≤ c && c ≤ 'Z') || ('0' ≤ c && c ≤ '9') || c = '_'

/-- ASCII lower-casing, modelling the case folding performed by
`re.IGNORECASE` on the ASCII-only patterns of the cleaners. -/
def lowerChar (c : Char) : Char :=
  if 'A' ≤ c && c ≤ 'Z' then Char.ofNat (c.toNat + 32) else c

/-- Lexicographic (code-point) comparison of character lists: this is how
Python compares `str` values and how SQLite compares `TEXT` values (UTF-8
byte order coincides with code-point order). -/
def lexLe : List Char → List Char → Bool
  | [], _ => true
  | _ :: _, [] => false
  | a :: as, b :: bs => if a = b then lexLe as bs else decide (a < b)

/-- String comparison `a <= b`, as used by the SQL filter `fetched_at >= ?`. -/
def strLe (a b : String) : Bool := lexLe a.data b.data

/-- Does `pat` occur, case-insensitively (ASCII), at the very start of `s`? -/
def ciStarts : List Char → List Char → Bool
  | [], _ => true
  | _ :: _, [] => false
  | p :: ps, c :: cs => lowerChar c = lowerChar p && ciStarts ps cs

/-- Generic left-to-right scan-and-replace loop: at each position try the
matcher; on a match of `n` characters emit a single space and resume after
the match, otherwise keep the character.  This is `re.sub(pat, " ", s)` for
patterns that never match the empty string.  The fuel argument (initialised
to the length of the list) makes the recursion structural. -/
def scanAux (m : List Char → Option Nat) : Nat → List Char → List Char
  | 0, l => l
  | _ + 1, [] => []
  | fuel + 1, c :: rest =>
    match m (c :: rest) with
    | some n => ' ' :: scanAux m fuel (List.drop (n - 1) rest)
    | none => c :: scanAux m fuel rest

/-- Replace every match of `m` in `l` by a single space. -/
def scanSub (m : List Char → Option Nat) (l : List Char) : List Char :=
  scanAux m l.length l

/-- Matcher for a case-insensitive literal pattern. -/
def litCI (pat : List Char) (s : List Char) : Option Nat :=
  if ciStarts pat s then some pat.length else none

/-- Matcher for a case-insensitive literal followed by the greedy tail
`[\s\S]{0,200}` (used by the two open-ended boilerplate patterns). -/
def litCITail (pat : List Char) (s : List Char) : Option Nat :=
  if ciStarts pat s then some (pat.length + min 200 (s.length - pat.length)) else none

/-- Matcher for `by continued use, you (agree|accept)[\s\S]{0,200}`. -/
def mContinuedUse (s : List Char) : Option Nat :=
  let base := "by continued use, you ".data
  if ciStarts base s then
    let t := List.drop base.length s
    if ciStarts "agree".data t then
      some (base.length + 5 + min 200 (t.length - 5))
    else if ciStarts "accept".data t then
      some (base.length + 6 + min 200 (t.length - 6))
    else none
  else none

/-- Matcher for `click (find out more|here for more)`. -/
def mClick (s : List Char) : Option Nat :=
  let base := "click ".data
  if ciStarts base s then
    let t := List.drop base.length s
    if ciStarts "find out more".data t then some (base.length + 13)
    else if ciStarts "here for more".data t then some (base.length + 13)
    else none
  else none

/-- Matcher for `filtered by:\s*\w+`. -/
def mFilteredBy (s : List Char) : Option Nat :=
  let base := "filtered by:".data
  if ciStarts base s then
    let t := List.drop base.length s
    let k := (t.takeWhile isWs).length
    let w := ((t.drop k).takeWhile isWordChar).length
    if w = 0 then none else some (base.length + k + w)
  else none

/-- Matcher for the tag pattern `<[^>]+>`. -/
def mTag : List Char → Option Nat
  | [] => none
  | c :: t =>
    if c = '<' then
      let k := (t.takeWhile (fun d => !(d = '>'))).length
      if k = 0 then none
      else match t.get? k with
        | some d => if d = '>' then some (k + 2) else none
        | none => none
    else none

/-- The ordered boilerplate-pattern matchers of `clean_summary`
(export_jsonl.py); each entry embeds one regex of the `patterns` list. -/
def exporterMatchers : List (List Char → Option Nat) :=
  [ litCITail "we use cookies to ensure".data
  , mContinuedUse
  , mClick
  , litCI "i agree".data
  , litCI "find out more".data
  , litCI "advertisement".data
  , mFilteredBy
  , litCI "read more".data
  , litCI "continue reading".data
  , litCI "subscribe".data ]

/-- The ordered boilerplate-pattern matchers of `clean_summary_for_snapshot`
(rss_fetcher.py); the source duplicates the exporter's list verbatim. -/
def snapshotMatchers : List (List Char → Option Nat) :=
  [ litCITail "we use cookies to ensure".data
  , mContinuedUse
  , mClick
  , litCI "i agree".data
  , litCI "find out more".data
  , litCI "advertisement".data
  , mFilteredBy
  , litCI "read more".data
  , litCI "continue reading".data
  , litCI "subscribe".data ]

/-- Apply a list of substitutions in order (`for p in patterns: s = re.sub(p, " ", s)`). -/
def applyMatchers (ms : List (List Char → Option Nat)) (l : List Char) : List Char :=
  ms.foldl (fun acc m => scanSub m acc) l

/-- Entity table for the model of `html.unescape`: at a position right after
an ampersand, recognise a named reference and return the decoded character
together with the number of characters consumed. -/
def entityAt (t : List Char) : Option (Char × Nat) :=
  if "amp;".data.isPrefixOf t then some ('&', 4)
  else if "lt;".data.isPrefixOf t then some ('<', 3)
  else if "gt;".data.isPrefixOf t then some ('>', 3)
  else if "quot;".data.isPrefixOf t then some ('"', 5)
  else if "apos;".data.isPrefixOf t then some ('\'', 5)
  else if "nbsp;".data.isPrefixOf t then some (' ', 5)
  else none

/-- Model of Python's `html.unescape` over a representative table of named
character references (semicolon-terminated forms): the function walks the
string once and only acts at ampersands, exactly like the stdlib function,
which returns its input unchanged when it contains no `&`. -/
def unescapeAux : Nat → List Char → List Char
  | 0, l => l
  | _ + 1, [] => []
  | fuel + 1, c :: rest =>
    if c = '&' then
      match entityAt rest with
      | some (ch, n) => ch :: unescapeAux fuel (List.drop n rest)
      | none => '&' :: unescapeAux fuel rest
    else c :: unescapeAux fuel rest

/-- Decode HTML entity references (model of `html.unescape`). -/
def unescape (l : List Char) : List Char :=
  unescapeAux l.length l

/-- Replace every maximal whitespace run by a single space: the semantics of
`re.sub(r"\s+", " ", s)`.  The flag records whether the previous character
was part of a whitespace run already replaced. -/
def collapseAux : Bool → List Char → List Char
  | _, [] => []
  | inRun, c :: rest =>
    if isWs c then
      if inRun then collapseAux true rest else ' ' :: collapseAux true rest
    else c :: collapseAux false rest

/-- Drop leading whitespace (one side of Python's `str.strip`). -/
def dropLead (l : List Char) : List Char := l.dropWhile isWs

/-- Drop trailing whitespace (the other side of Python's `str.strip`). -/
def dropTrail (l : List Char) : List Char := (l.reverse.dropWhile isWs).reverse

/-- Python's `str.strip()`. -/
def stripEnds (l : List Char) : List Char := dropTrail (dropLead l)

/-- Embedding of `clean_summary` from scripts/export_jsonl.py.  Note the
falsy short-circuit `if not text: return text` returns the *input* (so the
empty string comes back unchanged, not as `None`); only a non-empty input
whose cleaned form is empty becomes `none`. -/
def clean_summary (text : Option String) : Option String :=
  match text with
  | none => none
  | some t =>
    if t = "" then some t
    else
      let s := applyMatchers exporterMatchers t.data
      let s := scanSub mTag s
      let s := unescape s
      let s := stripEnds (collapseAux false s)
      if s.isEmpty then none else some (String.mk s)

/-- Embedding of the nested `clean_summary_for_snapshot` from
`export_db_to_json` in scripts/rss_fetcher.py.  Its falsy short-circuit is
`if not s: return None`, so here the empty string maps to `none`. -/
def clean_summary_for_snapshot (text : Option String) : Option String :=
  match text with
  | none => none
  | some t =>
    if t = "" then none
    else
      let s := applyMatchers snapshotMatchers t.data
      let s := scanSub mTag s
      let s := unescape s
      let s := stripEnds (collapseAux false s)
      if s.isEmpty then none else some (String.mk s)

/-- Character list of the cleaned value of `s` (empty when the cleaner
returns null): the domain on which the idempotence question lives. -/
def cleanedList (s : String) : List Char :=
  match clean_summary (some s) with
  | some r => r.data
  | none => []

/-! ## Datetimes and the store's timestamp (save_items) -/

/-- Naive UTC datetime, modelling the value of `datetime.utcnow()`. -/
structure PyDatetime where
  year : Nat
  month : Nat
  day : Nat
  hour : Nat
  minute : Nat
  second : Nat
  microsecond : Nat
deriving DecidableEq, Repr

/-- Decimal digit character. -/
def digitChar (n : Nat) : Char := Char.ofNat (48 + n)

/-- Zero-padded fixed-width decimal rendering (width `w`, value `n` taken
mod `10 ^ w`), most significant digit first — the `%04d` / `%02d` / `%06d`
fields of `datetime.isoformat`. -/
def padNum : Nat → Nat → List Char
  | 0, _ => []
  | w + 1, n => padNum w (n / 10) ++ [digitChar (n % 10)]

/-- Model of `datetime.isoformat()`: `YYYY-MM-DDTHH:MM:SS` followed by
`.ffffff` only when the microsecond field is non-zero (Python's `timespec`
default omits the fraction exactly when `microsecond == 0`). -/
def pyIsoformat (d : PyDatetime) : List Char :=
  padNum 4 d.year ++ '-' ::
  (padNum 2 d.month ++ '-' ::
  (padNum 2 d.day ++ 'T' ::
  (padNum 2 d.hour ++ ':' ::
  (padNum 2 d.minute ++ ':' ::
  (padNum 2 d.second ++
    (if d.microsecond = 0 then [] else '.' :: padNum 6 d.microsecond))))))

/-- The store's `fetched_at` stamp: `datetime.utcnow().isoformat() + "Z"`
from `save_items`. -/
def stampAt (d : PyDatetime) : String := String.mk (pyIsoformat d ++ ['Z'])

/-- Temporal order key of a datetime (order-isomorphic to the
lexicographic order on the field tuple for in-range datetimes). -/
def dtKey (d : PyDatetime) : Nat :=
  (((((d.year * 100 + d.month) * 100 + d.day) * 100 + d.hour) * 100 +
      d.minute) * 100 + d.second) * 1000000 + d.microsecond

/-- Field bounds satisfied by every value `datetime.utcnow()` can produce
(Python datetimes have `1 <= year <= 9999`, `month <= 12`, `day <= 31`,
`hour < 24`, `minute, second < 60`, `microsecond < 10^6`). -/
def validDT (d : PyDatetime) : Prop :=
  d.year < 10000 ∧ d.month < 100 ∧ d.day < 100 ∧ d.hour < 100 ∧
    d.minute < 100 ∧ d.second < 100 ∧ d.microsecond < 1000000

instance (d : PyDatetime) : Decidable (validDT d) := by
  unfold validDT; infer_instance

/-! ## The item store (RSSDB.save_items) and the exporter's query -/

/-- Canonical item record as produced by `parse_rss` (the dict appended to
`items`; every field may be Python `None`). -/
structure ItemRec where
  guid : Option String
  title : Option String
  link : Option String
  published : Option String
  summary : Option String
deriving DecidableEq, Repr

/-- A stored row of the `items` table (the `id` integer key is irrelevant
to the claims and omitted; `fetched_at` is always set by the store). -/
structure Row where
  guid : Option String
  title : Option String
  link : Option String
  published : Option String
  summary : Option String
  fetched_at : String
deriving DecidableEq, Repr

/-- Row built by the INSERT statement of `save_items`. -/
def mkRow (it : ItemRec) (ts : String) : Row :=
  ⟨it.guid, it.title, it.link, it.published, it.summary, ts⟩

/-- Loop of `save_items`: one INSERT attempt per item, where a UNIQUE
violation on a non-null guid (an `sqlite3.IntegrityError`) is silently
skipped; SQLite's UNIQUE constraint never fires for NULL guids, so items
with `guid = None` always insert.  `datetime.utcnow()` is read once per
iteration (index `i` of the clock), whether or not the insert succeeds. -/
def saveItemsGo (clock : Nat → PyDatetime) :
    List Row → Nat → Nat → List ItemRec → List Row × Nat
  | tbl, _, n, [] => (tbl, n)
  | tbl, i, n, it :: rest =>
    match it.guid with
    | some g =>
      if tbl.any (fun r => r.guid = some g) then
        saveItemsGo clock tbl (i + 1) n rest
      else
        saveItemsGo clock (tbl ++ [mkRow it (stampAt (clock i))]) (i + 1) (n + 1) rest
    | none => saveItemsGo clock (tbl ++ [mkRow it (stampAt (clock i))]) (i + 1) (n + 1) rest

/-- Embedding of `RSSDB.save_items`: returns the table after the batch and
the count of newly inserted rows. -/
def save_items (table : List Row) (items : List ItemRec) (clock : Nat → PyDatetime) :
    List Row × Nat :=
  saveItemsGo clock table 0 0 items

/-- Row order used by `ORDER BY fetched_at ASC`. -/
def rowLe (a b : Row) : Prop := strLe a.fetched_at b.fetched_at = true

instance : DecidableRel rowLe := fun a b => by unfold rowLe; infer_instance

/-- The LIMIT clause of the exporter's query: Python's `if limit:` skips the
clause when `limit` is absent or `0` (falsy), and SQLite treats a negative
LIMIT as unlimited. -/
def applyLimit (limit : Option Int) (rows : List Row) : List Row :=
  match limit with
  | none => rows
  | some k => if k = 0 then rows else if k < 0 then rows else rows.take k.toNat

/-- The SELECT of `export` (scripts/export_jsonl.py): optional WHERE
`fetched_at >= since` (skipped when `since` is absent or empty, both falsy
under `if since:`), `ORDER BY fetched_at ASC`, optional LIMIT. -/
def selectSince (table : List Row) (since : Option String) (limit : Option Int) :
    List Row :=
  let filtered :=
    match since with
    | none => table
    | some s => if s = "" then table else table.filter (fun r => strLe s r.fetched_at)
  applyLimit limit (List.insertionSort rowLe filtered)

/-- Embedding of `export`: one output record per selected row, with the
summary passed through `clean_summary`; the written count is the length. -/
def exportRows (table : List Row) (since : Option String) (limit : Option Int) :
    List Row :=
  (selectSince table since limit).map (fun r => { r with summary := clean_summary r.summary })

/-! ## The feed parser (parse_rss) -/

/-- An XML element as seen through `xml.etree.ElementTree`: qualified tag
(`{namespace}local` or plain), attribute list, text, children. -/
inductive XmlElem where
  | mk (tag : String) (attrib : List (String × String)) (text : Option String)
       (children : List XmlElem)

def XmlElem.tag : XmlElem → String
  | .mk t _ _ _ => t

def XmlElem.attrib : XmlElem → List (String × String)
  | .mk _ a _ _ => a

def XmlElem.text : XmlElem → Option String
  | .mk _ _ t _ => t

def XmlElem.children : XmlElem → List XmlElem
  | .mk _ _ _ c => c

/-- Characters after the first closing brace (`tag.split("\x7d", 1)[1]`).
A namespaced tag always contains `}`; for a malformed tag without one the
Python expression would raise, here it yields the empty string. -/
def afterBrace : List Char → List Char
  | [] => []
  | c :: rest => if c = '}' then rest else afterBrace rest

/-- Embedding of `_localname`: strip a `{namespace}` qualifier.  (The
`tag is None` branch for non-element nodes is unreachable here because the
model only contains genuine elements with string tags.) -/
def localname (tag : String) : String :=
  match tag.data with
  | '{' :: rest => String.mk (afterBrace rest)
  | _ => tag

/-- Text of a child as read by `parse_rss`:
`child.text.strip() if child.text and child.text.strip() else None`. -/
def childTextOf (e : XmlElem) : Option String :=
  match e.text with
  | none => none
  | some t =>
    if t = "" then none
    else
      let st := String.mk (stripEnds t.data)
      if st = "" then none else some st

/-- Attribute lookup, `child.attrib.get(key)`. -/
def attrGet (e : XmlElem) (key : String) : Option String :=
  (e.attrib.find? (fun p => p.1 = key)).map (fun p => p.2)

/-- Python's `x or y` on optional strings (`None` and `""` are falsy). -/
def pyOrOpt (x y : Option String) : Option String :=
  match x with
  | some s => if s = "" then y else some s
  | none => y

/-- Python truthiness test for an optional string (`not x`). -/
def pyFalsy (x : Option String) : Bool :=
  match x with
  | none => true
  | some s => s = ""

/-- The `data` dict built for one item/entry element while its children are
scanned.  `none` means the key is absent; `some none` means the key is
present with value `None` — the distinction matters because the source
mixes direct assignment (`data[k] = v`) with `data.setdefault(k, v)`. -/
structure RawData where
  guid : Option (Option String) := none
  link : Option (Option String) := none
  title : Option (Option String) := none
  summary : Option (Option String) := none
  published : Option (Option String) := none
deriving DecidableEq, Repr

/-- One iteration of `for child in item:` in `parse_rss`; mirrors the
`if`/`elif` chain on the child's local name. -/
def stepChild (d : RawData) (child : XmlElem) : RawData :=
  let name := localname child.tag
  let text := childTextOf child
  if name = "guid" then { d with guid := some text }
  else if name = "link" then
    match d.link with
    | none => { d with link := some (pyOrOpt (attrGet child "href") text) }
    | some _ => d
  else if name = "title" then { d with title := some text }
  else if name = "description" || name = "summary" || name = "content" then
    match d.summary with
    | none => { d with summary := some text }
    | some _ => d
  else if name = "pubDate" || name = "published" || name = "updated" then
    match d.published with
    | none => { d with published := some text }
    | some _ => d
  else d

/-- The raw `data` dict accumulated over the children of an entry. -/
def rawOf (e : XmlElem) : RawData :=
  e.children.foldl stepChild {}

/-- Post-processing at the end of `parse_rss`'s per-entry loop:
`if not data.get("guid"): data["guid"] = data.get("link")` and
`data.setdefault("title", data.get("summary") or "(no title)")`. -/
def postRaw (d : RawData) : ItemRec :=
  let g0 := d.guid.join
  { guid := if pyFalsy g0 then d.link.join else g0
    title :=
      match d.title with
      | some t => t
      | none => pyOrOpt d.summary.join (some "(no title)")
    link := d.link.join
    published := d.published.join
    summary := d.summary.join }

/-- Canonical record produced from one `item`/`entry` element. -/
def extractEntry (e : XmlElem) : ItemRec :=
  postRaw (rawOf e)

mutual

/-- All proper descendants of an element in document (pre-)order:
`root.findall('.//')`. -/
def descendants : XmlElem → List XmlElem
  | .mk _ _ _ ch => descList ch

def descList : List XmlElem → List XmlElem
  | [] => []
  | c :: cs => c :: (descendants c ++ descList cs)

end

/-- Embedding of `parse_rss` (applied to the already-parsed XML tree):
every descendant element whose local name is `item` or `entry` yields one
record, in document order. -/
def parse_rss (root : XmlElem) : List ItemRec :=
  (descendants root).filterMap fun e =>
    if localname e.tag = "item" || localname e.tag = "entry" then
      some (extractEntry e)
    else none

/-! ## Basic facts about the lexicographic comparison -/

theorem lexLe_nil (l : List Char) : lexLe [] l = true := rfl

theorem lexLe_refl (l : List Char) : lexLe l l = true := by
  induction l with
  | nil => rfl
  | cons c cs ih => simp [lexLe, ih]

theorem lexLe_trans (a b c : List Char) (h1 : lexLe a b = true) (h2 : lexLe b c = true) :
    lexLe a c = true := by
  induction a generalizing b c with
  | nil => simp [lexLe]
  | cons x xs ih =>
    cases b with
    | nil => simp [lexLe] at h1
    | cons y ys =>
      cases c with
      | nil => simp [lexLe] at h2
      | cons z zs =>
        simp only [lexLe] at h1 h2 ⊢
        by_cases hxy : x = y
        · subst hxy
          simp only [if_pos rfl] at h1
          by_cases hyz : x = z
          · subst hyz
            simp only [if_pos rfl] at h2 ⊢
            exact ih ys zs h1 h2
          · simpa [hyz] using h2
        · simp only [if_neg hxy, decide_eq_true_eq] at h1
          by_cases hyz : y = z
          · subst hyz
            simp [hxy, h1]
          · simp only [if_neg hyz, decide_eq_true_eq] at h2
            have hxz : x < z := lt_trans h1 h2
            have : ¬ x = z := ne_of_lt hxz
            simp [this, hxz]

theorem lexLe_total (a b : List Char) : lexLe a b = true ∨ lexLe b a = true := by
  induction a generalizing b with
  | nil => left; rfl
  | cons x xs ih =>
    cases b with
    | nil => right; rfl
    | cons y ys =>
      by_cases hxy : x = y
      · subst hxy
        rcases ih ys with h | h
        · left; simpa [lexLe] using h
        · right; simpa [lexLe] using h
      · rcases lt_trichotomy x y with h | h | h
        · left; simp [lexLe, hxy, h]
        · exact absurd h hxy
        · right
          have : ¬ y = x := fun e => hxy e.symm
          simp [lexLe, this, h]

theorem strLe_trans (a b c : String) (h1 : strLe a b = true) (h2 : strLe b c = true) :
    strLe a c = true :=
  lexLe_trans a.data b.data c.data h1 h2

theorem strLe_total (a b : String) : strLe a b = true ∨ strLe b a = true :=
  lexLe_total a.data b.data

instance : IsTotal Row rowLe := ⟨fun a b => strLe_total a.fetched_at b.fetched_at⟩

instance : IsTrans Row rowLe :=
  ⟨fun a b c => strLe_trans a.fetched_at b.fetched_at c.fetched_at⟩

/-! ## C1: idempotence of insertion on a duplicate guid -/

/-- C1: for an item with a non-null guid not yet present in the store, the
first `save_items` call inserts it (newly-inserted count 1) and a second
call with the same item is silently skipped: it returns count 0, leaves the
table unchanged, and the store ends up with exactly one row carrying that
guid. -/
theorem C1_duplicate_guid_insert_is_noop (it : ItemRec) (g : String)
    (hg : it.guid = some g) (table : List Row)
    (hfresh : ∀ r ∈ table, r.guid ≠ some g) (clk1 clk2 : Nat → PyDatetime) :
    (save_items table [it] clk1).2 = 1 ∧
    (save_items (save_items table [it] clk1).1 [it] clk2).1 =
      (save_items table [it] clk1).1 ∧
    (save_items (save_items table [it] clk1).1 [it] clk2).2 = 0 ∧
    ((save_items (save_items table [it] clk1).1 [it] clk2).1.filter
        (fun r => r.guid = some g)).length = 1 := by
  have hany : table.any (fun r => decide (r.guid = some g)) = false := by
    simp only [List.any_eq_false, decide_eq_true_eq]
    exact hfresh
  have hfilter : table.filter (fun r => decide (r.guid = some g)) = [] := by
    simp only [List.filter_eq_nil_iff, decide_eq_true_eq]
    exact hfresh
  simp only [save_items, saveItemsGo, hg, hany, Bool.false_eq_true, if_false]
  have hany2 : (table ++ [mkRow it (stampAt (clk1 0))]).any
      (fun r => decide (r.guid = some g)) = true := by
    simp [List.any_append, mkRow, hg]
  simp only [hany2, if_true]
  refine ⟨trivial, trivial, trivial, ?_⟩
  simp [List.filter_append, hfilter, mkRow, hg]

/-- Witness for C1 at a concrete item, empty store and constant clock. -/
theorem C1_witness :
    (save_items [] [⟨some "g1", some "t", none, none, none⟩]
        (fun _ => ⟨2025, 1, 1, 0, 0, 0, 1⟩)).2 = 1 ∧
    (save_items (save_items [] [⟨some "g1", some "t", none, none, none⟩]
          (fun _ => ⟨2025, 1, 1, 0, 0, 0, 1⟩)).1
        [⟨some "g1", some "t", none, none, none⟩]
        (fun _ => ⟨2025, 1, 1, 0, 0, 0, 2⟩)).1 =
      (save_items [] [⟨some "g1", some "t", none, none, none⟩]
        (fun _ => ⟨2025, 1, 1, 0, 0, 0, 1⟩)).1 ∧
    (save_items (save_items [] [⟨some "g1", some "t", none, none, none⟩]
          (fun _ => ⟨2025, 1, 1, 0, 0, 0, 1⟩)).1
        [⟨some "g1", some "t", none, none, none⟩]
        (fun _ => ⟨2025, 1, 1, 0, 0, 0, 2⟩)).2 = 0 ∧
    ((save_items (save_items [] [⟨some "g1", some "t", none, none, none⟩]
          (fun _ => ⟨2025, 1, 1, 0, 0, 0, 1⟩)).1
        [⟨some "g1", some "t", none, none, none⟩]
        (fun _ => ⟨2025, 1, 1, 0, 0, 0, 2⟩)).1.filter
      (fun r => r.guid = some "g1")).length = 1 :=
  C1_duplicate_guid_insert_is_noop ⟨some "g1", some "t", none, none, none⟩ "g1" rfl
    [] (by intro r hr; simp at hr) (fun _ => ⟨2025, 1, 1, 0, 0, 0, 1⟩)
    (fun _ => ⟨2025, 1, 1, 0, 0, 0, 2⟩)

/-! ## C2: semantics of the exporter's SELECT -/

theorem applyLimit_nil (limit : Option Int) : applyLimit limit [] = [] := by
  cases limit with
  | none => rfl
  | some k => simp [applyLimit]

theorem sorted_applyLimit (limit : Option Int) (rows : List Row)
    (h : List.Sorted rowLe rows) : List.Sorted rowLe (applyLimit limit rows) := by
  cases limit with
  | none => exact h
  | some k =>
    simp only [applyLimit]
    split
    · exact h
    · split
      · exact h
      · exact List.Pairwise.sublist (List.take_sublist _ _) h

/-- C2 (corrected): the exporter's query returns rows sorted ascending by
`fetched_at`; a given threshold selects exactly the rows with
`fetched_at >= since` under string comparison (the empty threshold is falsy
and skips the WHERE clause, which coincides with filtering by `>= ""`);
a threshold strictly above every stored `fetched_at` exports zero rows; a
*positive* limit `k` caps the result to the first `k` rows after ordering,
while a limit of `0` (falsy in `if limit:`) or a negative limit (unlimited
for SQLite) returns all rows. -/
theorem C2_select_semantics (t : List Row) (since : Option String)
    (limit : Option Int) (s : String) (k : Int) :
    List.Sorted rowLe (selectSince t since limit) ∧
    (selectSince t (some s) none).Perm (t.filter (fun r => strLe s r.fetched_at)) ∧
    ((∀ r ∈ t, strLe s r.fetched_at = false) → exportRows t (some s) limit = []) ∧
    (0 < k → selectSince t since (some k) = (selectSince t since none).take k.toNat) ∧
    (k ≤ 0 → selectSince t since (some k) = selectSince t since none) := by
  refine ⟨?_, ?_, ?_, ?_, ?_⟩
  · exact sorted_applyLimit limit _ (List.sorted_insertionSort rowLe _)
  · simp only [selectSince, applyLimit]
    split
    · next hs =>
      subst hs
      have : t.filter (fun r => strLe "" r.fetched_at) = t := by
        apply List.filter_eq_self.mpr
        intro r _
        exact lexLe_nil r.fetched_at.data
      rw [this]
      exact List.perm_insertionSort rowLe t
    · exact List.perm_insertionSort rowLe _
  · intro hall
    have hnil : selectSince t (some s) limit = [] := by
      simp only [selectSince]
      split
      · next hs =>
        have ht : t = [] := by
          cases t with
          | nil => rfl
          | cons r rs =>
            have h1 := hall r (by simp)
            rw [hs] at h1
            have h2 : strLe "" r.fetched_at = true := rfl
            rw [h2] at h1
            cases h1
        subst ht
        exact applyLimit_nil limit
      · have : t.filter (fun r => strLe s r.fetched_at) = [] := by
          apply List.filter_eq_nil_iff.mpr
          intro r hr
          simp [hall r hr]
        rw [this]
        exact applyLimit_nil limit
    simp [exportRows, hnil]
  · intro hk
    have h0 : ¬ k = 0 := by omega
    have h1 : ¬ k < 0 := by omega
    simp [selectSince, applyLimit, h0, h1]
  · intro hk
    rcases lt_or_eq_of_le hk with h | h
    · simp [selectSince, applyLimit, h, ne_of_lt h]
    · simp [selectSince, applyLimit, ← h]

/-- Witness for C2 on a one-row store: the since-above-everything export is
empty, and a positive limit takes a prefix of the ordered result. -/
theorem C2_witness :
    exportRows [⟨none, none, none, none, none, "2025-01-01T00:00:00.000001Z"⟩]
        (some "9") none = [] ∧
    selectSince [⟨none, none, none, none, none, "2025-01-01T00:00:00.000001Z"⟩]
        none (some 1) =
      (selectSince [⟨none, none, none, none, none, "2025-01-01T00:00:00.000001Z"⟩]
        none none).take (1 : Int).toNat ∧
    selectSince [⟨none, none, none, none, none, "2025-01-01T00:00:00.000001Z"⟩]
        none (some (-2)) =
      selectSince [⟨none, none, none, none, none, "2025-01-01T00:00:00.000001Z"⟩]
        none none :=
  ⟨(C2_select_semantics _ (some "9") none "9" 1).2.2.1 (by decide),
   (C2_select_semantics _ none (some 1) "9" 1).2.2.2.1 (by decide),
   (C2_select_semantics _ none (some (-2)) "9" (-2)).2.2.2.2 (by decide)⟩

/-- Counterexample to C2 as frozen: with a stored row and the given limit
`k = 0`, the claim says the result is capped to the zero earliest rows
(i.e. empty), but the code treats `limit = 0` as falsy, omits the LIMIT
clause, and returns the full row set. -/
theorem C2_counterexample :
    (selectSince [⟨none, none, none, none, none, "2025-01-01T00:00:00.000001Z"⟩]
      none (some 0)).length = 1 := by
  decide

/-! ## Field-extraction lemmas for parse_rss (C3, C4, C8) -/

theorem getLast?_cons_or {α : Type} (a : α) (l : List α) :
    (a :: l).getLast? = l.getLast?.or (some a) := by
  rw [List.getLast?_eq_head?_reverse, List.getLast?_eq_head?_reverse,
    List.reverse_cons]
  cases hr : l.reverse with
  | nil => simp
  | cons b bs => simp

theorem stepChild_title_eq (d : RawData) (c : XmlElem) :
    (stepChild d c).title =
      if localname c.tag = "title" then some (childTextOf c) else d.title := by
  by_cases h : localname c.tag = "title"
  · rw [if_pos h]
    simp [stepChild, h]
  · rw [if_neg h]
    simp only [stepChild, Bool.or_eq_true, decide_eq_true_eq]
    split_ifs with g1 g2 g3 g4 g5 <;>
      first
        | rfl
        | (cases d.link <;> rfl)
        | (cases d.summary <;> rfl)
        | (cases d.published <;> rfl)
        | (exact absurd g3 h)

theorem stepChild_summary_eq (d : RawData) (c : XmlElem) :
    (stepChild d c).summary =
      if (localname c.tag = "description" ∨ localname c.tag = "summary" ∨
          localname c.tag = "content") then
        some (d.summary.getD (childTextOf c))
      else d.summary := by
  by_cases h : localname c.tag = "description" ∨ localname c.tag = "summary" ∨
      localname c.tag = "content"
  · rw [if_pos h]
    rcases h with h | h | h <;> cases hs : d.summary <;> simp [stepChild, h, hs]
  · rw [if_neg h]
    simp only [stepChild, Bool.or_eq_true, decide_eq_true_eq]
    split_ifs with g1 g2 g3 g4 g5 <;>
      first
        | rfl
        | (cases d.link <;> rfl)
        | (cases d.summary <;> rfl)
        | (cases d.published <;> rfl)
        | (exact absurd (by tauto) h)

theorem stepChild_published_eq (d : RawData) (c : XmlElem) :
    (stepChild d c).published =
      if (localname c.tag = "pubDate" ∨ localname c.tag = "published" ∨
          localname c.tag = "updated") then
        some (d.published.getD (childTextOf c))
      else d.published := by
  by_cases h : localname c.tag = "pubDate" ∨ localname c.tag = "published" ∨
      localname c.tag = "updated"
  · rw [if_pos h]
    rcases h with h | h | h <;> cases hs : d.published <;> simp [stepChild, h, hs]
  · rw [if_neg h]
    simp only [stepChild, Bool.or_eq_true, decide_eq_true_eq]
    split_ifs with g1 g2 g3 g4 g5 <;>
      first
        | rfl
        | (cases d.link <;> rfl)
        | (cases d.summary <;> rfl)
        | (cases d.published <;> rfl)
        | (exact absurd (by tauto) h)

theorem foldl_stepChild_title (cs : List XmlElem) (d : RawData) :
    (cs.foldl stepChild d).title =
      ((cs.filter fun c => localname c.tag = "title").getLast?.map childTextOf).or
        d.title := by
  induction cs generalizing d with
  | nil => simp
  | cons c cs ih =>
    simp only [List.foldl_cons]
    rw [ih]
    by_cases h : localname c.tag = "title"
    · rw [List.filter_cons_of_pos (by simpa using h), getLast?_cons_or]
      rw [stepChild_title_eq, if_pos h]
      cases hl : (cs.filter fun c => localname c.tag = "title").getLast? with
      | none => simp [hl]
      | some c' => simp [hl]
    · rw [List.filter_cons_of_neg (by simpa using h)]
      rw [stepChild_title_eq, if_neg h]

theorem foldl_stepChild_summary (cs : List XmlElem) (d : RawData) :
    (cs.foldl stepChild d).summary =
      d.summary.or
        ((cs.filter fun c => (localname c.tag = "description" ∨
            localname c.tag = "summary" ∨ localname c.tag = "content")).head?.map
          childTextOf) := by
  induction cs generalizing d with
  | nil => simp
  | cons c cs ih =>
    simp only [List.foldl_cons]
    rw [ih]
    by_cases h : localname c.tag = "description" ∨ localname c.tag = "summary" ∨
        localname c.tag = "content"
    · rw [List.filter_cons_of_pos (by simpa using h)]
      rw [stepChild_summary_eq, if_pos h]
      cases hs : d.summary with
      | none => simp
      | some v => simp
    · rw [List.filter_cons_of_neg (by simpa using h)]
      rw [stepChild_summary_eq, if_neg h]

theorem foldl_stepChild_published (cs : List XmlElem) (d : RawData) :
    (cs.foldl stepChild d).published =
      d.published.or
        ((cs.filter fun c => (localname c.tag = "pubDate" ∨
            localname c.tag = "published" ∨ localname c.tag = "updated")).head?.map
          childTextOf) := by
  induction cs generalizing d with
  | nil => simp
  | cons c cs ih =>
    simp only [List.foldl_cons]
    rw [ih]
    by_cases h : localname c.tag = "pubDate" ∨ localname c.tag = "published" ∨
        localname c.tag = "updated"
    · rw [List.filter_cons_of_pos (by simpa using h)]
      rw [stepChild_published_eq, if_pos h]
      cases hs : d.published with
      | none => simp
      | some v => simp
    · rw [List.filter_cons_of_neg (by simpa using h)]
      rw [stepChild_published_eq, if_neg h]

/-! ## C3: guid/title fallbacks in the per-entry post-processing -/

/-- C3 (corrected): the guid fallback is as claimed — a falsy raw guid is
replaced by the link.  The title fallback, however, only fires when *no*
`title` element occurred at all (the source uses `setdefault`, and a
`title` element with empty text stores the key with value `None`, which
blocks the fallback): in that case the title becomes the non-empty summary
candidate, or the placeholder `"(no title)"` when there is none. -/
theorem C3_fallback_rules (e : XmlElem) :
    (pyFalsy (rawOf e).guid.join = true → ∀ l : String,
      (extractEntry e).link = some l → (extractEntry e).guid = some l) ∧
    ((∀ c ∈ e.children, localname c.tag ≠ "title") → ∀ s : String, s ≠ "" →
      (extractEntry e).summary = some s → (extractEntry e).title = some s) ∧
    ((∀ c ∈ e.children, localname c.tag ≠ "title") →
      (extractEntry e).summary = none → (extractEntry e).title = some "(no title)") := by
  have hlink : (extractEntry e).link = (rawOf e).link.join := rfl
  have hsum : (extractEntry e).summary = (rawOf e).summary.join := rfl
  refine ⟨?_, ?_, ?_⟩
  · intro hg l hl
    have : (extractEntry e).guid = (rawOf e).link.join := by
      simp only [extractEntry, postRaw, hg, if_true]
    rw [this, ← hlink, hl]
  all_goals
    intro ht
    have hraw : (rawOf e).title = none := by
      have h := foldl_stepChild_title e.children {}
      have hfil : (e.children.filter fun c => localname c.tag = "title") = [] := by
        apply List.filter_eq_nil_iff.mpr
        intro c hc
        simpa using ht c hc
      rw [rawOf] at *
      rw [h, hfil]
      rfl
    have htitle : (extractEntry e).title = pyOrOpt (rawOf e).summary.join
        (some "(no title)") := by
      simp only [extractEntry, postRaw, hraw]
  · intro s hs hsome
    rw [htitle, ← hsum, hsome]
    simp [pyOrOpt, hs]
  · intro hnone
    rw [htitle, ← hsum, hnone]
    rfl

/-- Witness for C3: the guid falls back to the link, a summary-only entry
gets its summary as title, and a childless entry gets the placeholder. -/
theorem C3_witness :
    (extractEntry (.mk "item" [] none [.mk "link" [] (some "L") []])).guid =
      some "L" ∧
    (extractEntry (.mk "item" [] none [.mk "summary" [] (some "S") []])).title =
      some "S" ∧
    (extractEntry (.mk "item" [] none [])).title = some "(no title)" :=
  ⟨(C3_fallback_rules (.mk "item" [] none [.mk "link" [] (some "L") []])).1
      (by decide) "L" rfl,
   (C3_fallback_rules (.mk "item" [] none [.mk "summary" [] (some "S") []])).2.1
      (by decide) "S" (by decide) rfl,
   (C3_fallback_rules (.mk "item" [] none [])).2.2 (by decide) rfl⟩

/-- Counterexample to C3 as frozen: an entry whose `title` element has
empty text and whose `summary` is `"S"` is stored with a null title — the
record's title field is empty and its summary is non-empty, yet
`title != summary`, because `setdefault` sees the already-present `None`. -/
theorem C3_counterexample :
    (extractEntry (.mk "item" [] none
        [.mk "title" [] none [], .mk "summary" [] (some "S") []])).title = none ∧
    (extractEntry (.mk "item" [] none
        [.mk "title" [] none [], .mk "summary" [] (some "S") []])).summary =
      some "S" :=
  ⟨rfl, rfl⟩

/-! ## C4: which occurrence of a repeated child wins -/

/-- C4 (corrected): `title` is written with direct dict assignment, so the
*last* `title` occurrence wins; the summary candidate is written with
`setdefault`, so the *first* `description`/`summary`/`content` occurrence —
empty or not — fixes it permanently (an empty first occurrence pins it to
null); `published` likewise takes the first `pubDate`/`published`/`updated`
occurrence. -/
theorem C4_extraction_no_override (e : XmlElem) :
    (rawOf e).title =
      ((e.children.filter fun c => localname c.tag = "title").getLast?).map
        childTextOf ∧
    (extractEntry e).summary =
      (((e.children.filter fun c => (localname c.tag = "description" ∨
          localname c.tag = "summary" ∨ localname c.tag = "content")).head?).map
        childTextOf).join ∧
    (extractEntry e).published =
      (((e.children.filter fun c => (localname c.tag = "pubDate" ∨
          localname c.tag = "published" ∨ localname c.tag = "updated")).head?).map
        childTextOf).join := by
  refine ⟨?_, ?_, ?_⟩
  · have h := foldl_stepChild_title e.children {}
    rw [rawOf, h]
    exact Option.or_none
  · have h := foldl_stepChild_summary e.children {}
    have h2 : (extractEntry e).summary = (rawOf e).summary.join := rfl
    rw [h2, rawOf, h]
    rfl
  · have h := foldl_stepChild_published e.children {}
    have h2 : (extractEntry e).published = (rawOf e).published.join := rfl
    rw [h2, rawOf, h]
    rfl

/-- Counterexample to C4 as frozen: with two `title` children the *second*
one wins (direct assignment overrides), and an empty first `description`
followed by a non-empty `summary` leaves the stored summary null (the first
occurrence is not required to be non-empty, contrary to the claim). -/
theorem C4_counterexample :
    (extractEntry (.mk "item" [] none
        [.mk "title" [] (some "A") [], .mk "title" [] (some "B") []])).title =
      some "B" ∧
    (extractEntry (.mk "item" [] none
        [.mk "description" [] none [], .mk "summary" [] (some "S") []])).summary =
      none :=
  ⟨rfl, rfl⟩

/-! ## C8: link extraction, namespaces and href preference -/

theorem afterBrace_append (l r : List Char) (h : '}' ∉ l) :
    afterBrace (l ++ '}' :: r) = r := by
  induction l with
  | nil => simp [afterBrace]
  | cons c cs ih =>
    have hc : ¬ c = '}' := by
      intro hcc
      exact h (hcc ▸ List.mem_cons_self c cs)
    have hcs : '}' ∉ cs := fun hm => h (List.mem_cons_of_mem c hm)
    simp [afterBrace, hc, ih hcs]

theorem localname_braced (ns loc : String) (h : '}' ∉ ns.data) :
    localname ("\x7b" ++ ns ++ "\x7d" ++ loc) = loc := by
  have hdata : ("\x7b" ++ ns ++ "\x7d" ++ loc).data = '{' :: (ns.data ++ '}' :: loc.data) := by
    show ("\x7b".data ++ ns.data ++ "\x7d".data ++ loc.data) = _
    simp
  simp only [localname, hdata, afterBrace_append ns.data loc.data h]

/-- C8 (corrected): a namespaced Atom `link` with a *non-empty* href and a
plain RSS `link` whose text is non-empty and free of surrounding whitespace
both yield `link == X`, whatever the namespace; when a link element has
both a *non-empty* href and text, the href wins.  (An empty href is falsy
in `href or text`, so it falls back to the element text — see the
counterexample; and element text is whitespace-stripped before use.)
At document level, any descendant whose local name is `item`/`entry`
produces its record irrespective of the namespace on its own tag. -/
theorem C8_link_namespace_and_href (ns x h tx : String) (hns : '}' ∉ ns.data)
    (hx : x ≠ "") (hstrip : stripEnds x.data = x.data) (hh : h ≠ "") :
    (extractEntry (.mk "entry" [] none
        [.mk ("\x7b" ++ ns ++ "\x7d" ++ "link") [("href", x)] none []])).link = some x ∧
    (extractEntry (.mk "item" [] none [.mk "link" [] (some x) []])).link = some x ∧
    (extractEntry (.mk "item" [] none
        [.mk "link" [("href", h)] (some tx) []])).link = some h ∧
    parse_rss (.mk ("\x7b" ++ ns ++ "\x7d" ++ "feed") [] none
        [.mk ("\x7b" ++ ns ++ "\x7d" ++ "entry") [] none
          [.mk ("\x7b" ++ ns ++ "\x7d" ++ "link") [("href", x)] none []]]) =
      [extractEntry (.mk ("\x7b" ++ ns ++ "\x7d" ++ "entry") [] none
        [.mk ("\x7b" ++ ns ++ "\x7d" ++ "link") [("href", x)] none []])] := by
  have hlink := localname_braced ns "link" hns
  have hentry := localname_braced ns "entry" hns
  have hplain : localname "link" = "link" := rfl
  refine ⟨?_, ?_, ?_, ?_⟩
  · simp [extractEntry, rawOf, stepChild, hlink, attrGet, childTextOf, pyOrOpt,
      postRaw, hx, XmlElem.tag, XmlElem.attrib, XmlElem.text, XmlElem.children,
      List.find?]
  · have htext : childTextOf (.mk "link" [] (some x) []) = some x := by
      simp only [childTextOf, XmlElem.text]
      rw [if_neg hx]
      have : String.mk (stripEnds x.data) = x := by rw [hstrip]
      rw [this, if_neg hx]
    simp [extractEntry, rawOf, stepChild, htext, attrGet, pyOrOpt, postRaw,
      hplain, XmlElem.tag, XmlElem.attrib, XmlElem.children, List.find?]
  · simp [extractEntry, rawOf, stepChild, attrGet, pyOrOpt, postRaw, hh,
      hplain, XmlElem.tag, XmlElem.attrib, XmlElem.text, XmlElem.children,
      List.find?]
  · simp [parse_rss, descendants, descList, hlink, hentry, XmlElem.tag,
      XmlElem.children]

/-- Witness for C8 at a concrete namespace and concrete link values. -/
theorem C8_witness :
    (extractEntry (.mk "entry" [] none
        [.mk ("\x7b" ++ "ns1" ++ "\x7d" ++ "link") [("href", "X")] none []])).link =
      some "X" ∧
    (extractEntry (.mk "item" [] none [.mk "link" [] (some "X") []])).link =
      some "X" ∧
    (extractEntry (.mk "item" [] none
        [.mk "link" [("href", "H")] (some "T") []])).link = some "H" ∧
    parse_rss (.mk ("\x7b" ++ "ns1" ++ "\x7d" ++ "feed") [] none
        [.mk ("\x7b" ++ "ns1" ++ "\x7d" ++ "entry") [] none
          [.mk ("\x7b" ++ "ns1" ++ "\x7d" ++ "link") [("href", "X")] none []]]) =
      [extractEntry (.mk ("\x7b" ++ "ns1" ++ "\x7d" ++ "entry") [] none
        [.mk ("\x7b" ++ "ns1" ++ "\x7d" ++ "link") [("href", "X")] none []])] :=
  C8_link_namespace_and_href "ns1" "X" "H" "T" (by decide) (by decide) (by decide)
    (by decide)

/-- Counterexample to C8 as frozen: a link element carrying `href=""`
together with text `"T"` does *not* prefer the href — the empty href is
falsy in `href or text`, so the record's link is `"T"`, not `""`. -/
theorem C8_counterexample :
    (extractEntry (.mk "item" [] none
        [.mk "link" [("href", "")] (some "T") []])).link = some "T" ∧
    (extractEntry (.mk "item" [] none
        [.mk "link" [("href", "")] (some "T") []])).link ≠ some "" :=
  ⟨rfl, by decide⟩

/-! ## C6, C7, C10: behaviour of the summary cleaners -/

/-- C6 (corrected): `clean(null) == null`, and for every *non-empty* input
the cleaner never returns the empty string (an empty cleaned result becomes
null).  But `clean("")` returns `""` itself, not null: the falsy
short-circuit `if not text: return text` hands back the input. -/
theorem ite_isEmpty_ne_some_empty (l : List Char) :
    (if l.isEmpty then none else some (String.mk l)) ≠ some "" := by
  split
  · simp
  · next h =>
    intro hc
    have hmk := Option.some.inj hc
    have hd : l = [] := congrArg String.data hmk
    rw [hd] at h
    simp at h

theorem C6_cleaner_never_empty :
    clean_summary none = none ∧
    clean_summary (some "") = some "" ∧
    ∀ s : String, s ≠ "" → clean_summary (some s) ≠ some "" := by
  refine ⟨rfl, rfl, ?_⟩
  intro s hs hcontr
  simp only [clean_summary, if_neg hs] at hcontr
  exact ite_isEmpty_ne_some_empty _ hcontr

/-- Witness for C6 at the non-empty input `"a"`. -/
theorem C6_witness : clean_summary (some "a") ≠ some "" :=
  C6_cleaner_never_empty.2.2 "a" (by decide)

/-- Counterexample to C6 as frozen: the claim says `clean("")` returns
null, but the code returns the empty string unchanged. -/
theorem C6_counterexample :
    clean_summary (some "") = some "" ∧ clean_summary (some "") ≠ none :=
  ⟨rfl, by decide⟩

/-- C7 (confirmed): the two concrete scenarios of the spec — the cookie
banner cleans to null, and `"I AGREE <b>Subscribe</b> now"` cleans to the
residual text `"now"`. -/
theorem C7_concrete_scenarios :
    clean_summary
        (some "<p>We use cookies to ensure the best experience. Read more</p>") =
      none ∧
    clean_summary (some "I AGREE <b>Subscribe</b> now") = some "now" :=
  ⟨rfl, rfl⟩

/-- C10 (corrected): the exporter's `clean_summary` and the Poller's
`clean_summary_for_snapshot` agree on every input except the empty string,
where the former returns `""` (its short-circuit returns the input) and the
latter returns null (its short-circuit returns `None`). -/
theorem C10_cleaners_agree (s : Option String) (hs : s ≠ some "") :
    clean_summary_for_snapshot s = clean_summary s := by
  match s with
  | none => rfl
  | some t =>
    have ht : t ≠ "" := fun e => hs (by rw [e])
    simp only [clean_summary, clean_summary_for_snapshot, if_neg ht,
      show snapshotMatchers = exporterMatchers from rfl]

/-- Witness for C10 at the input `"x"`. -/
theorem C10_witness :
    clean_summary_for_snapshot (some "x") = clean_summary (some "x") :=
  C10_cleaners_agree (some "x") (by decide)

/-- Counterexample to C10 as frozen: at the empty string the two cleaners
disagree. -/
theorem C10_counterexample :
    clean_summary_for_snapshot (some "") = none ∧
    clean_summary (some "") = some "" ∧
    clean_summary_for_snapshot (some "") ≠ clean_summary (some "") :=
  ⟨rfl, rfl, by decide⟩

/-! ## C9: the store's timestamp format and its ordering -/

theorem padNum_length (w n : Nat) : (padNum w n).length = w := by
  induction w generalizing n with
  | zero => rfl
  | succ w ih => simp [padNum, ih]

theorem digitChar_lt_iff :
    ∀ i, i < 10 → ∀ j, j < 10 → ((digitChar i < digitChar j) ↔ i < j) := by
  decide

theorem digitChar_eq_iff :
    ∀ i, i < 10 → ∀ j, j < 10 → ((digitChar i = digitChar j) ↔ i = j) := by
  decide

theorem lexLe_cons_same (c : Char) (x y : List Char) :
    lexLe (c :: x) (c :: y) = lexLe x y := by
  simp [lexLe]

theorem padLex (w : Nat) :
    ∀ (a b : Nat) (suf1 suf2 : List Char), a < 10 ^ w → b < 10 ^ w →
      lexLe (padNum w a ++ suf1) (padNum w b ++ suf2) =
        (if a < b then true else if b < a then false else lexLe suf1 suf2) := by
  induction w with
  | zero =>
    intro a b suf1 suf2 ha hb
    have ha0 : a = 0 := by omega
    have hb0 : b = 0 := by omega
    subst ha0; subst hb0
    simp [padNum]
  | succ w ih =>
    intro a b suf1 suf2 ha hb
    have ha' : a / 10 < 10 ^ w := by
      have : 10 ^ (w + 1) = 10 ^ w * 10 := by ring
      omega
    have hb' : b / 10 < 10 ^ w := by
      have : 10 ^ (w + 1) = 10 ^ w * 10 := by ring
      omega
    have hma : a % 10 < 10 := Nat.mod_lt _ (by norm_num)
    have hmb : b % 10 < 10 := Nat.mod_lt _ (by norm_num)
    simp only [padNum, List.append_assoc, List.cons_append, List.nil_append]
    rw [ih (a / 10) (b / 10) _ _ ha' hb']
    by_cases h1 : a / 10 < b / 10
    · have hab : a < b := by omega
      simp [h1, hab]
    · by_cases h2 : b / 10 < a / 10
      · have hab : ¬ a < b := by omega
        have hba : b < a := by omega
        simp [h1, h2, hab, hba]
      · have h3 : a / 10 = b / 10 := by omega
        simp only [h1, h2, if_false]
        by_cases h4 : a % 10 = b % 10
        · have hab : a = b := by omega
          have hdig : digitChar (a % 10) = digitChar (b % 10) :=
            (digitChar_eq_iff _ hma _ hmb).mpr h4
          simp [lexLe, hdig, hab]
        · have hdig : ¬ digitChar (a % 10) = digitChar (b % 10) :=
            fun e => h4 ((digitChar_eq_iff _ hma _ hmb).mp e)
          by_cases h5 : a % 10 < b % 10
          · have hab : a < b := by omega
            have hlt : digitChar (a % 10) < digitChar (b % 10) :=
              (digitChar_lt_iff _ hma _ hmb).mpr h5
            simp [lexLe, hdig, hab, hlt]
          · have hba : b % 10 < a % 10 := by omega
            have hab : ¬ a < b := by omega
            have hba' : b < a := by omega
            have hlt : ¬ digitChar (a % 10) < digitChar (b % 10) :=
              fun e => h5 ((digitChar_lt_iff _ hma _ hmb).mp e)
            simp [lexLe, hdig, hab, hba', hlt]

theorem data_mk (l : List Char) : (String.mk l).data = l := rfl

theorem iteT (c : Prop) [Decidable c] (x : Bool) :
    ((if c then true else x) = true) ↔ (c ∨ (¬ c ∧ x = true)) := by
  split_ifs with h <;> simp [h]

theorem iteF (c : Prop) [Decidable c] (x : Bool) :
    ((if c then false else x) = true) ↔ (¬ c ∧ x = true) := by
  split_ifs with h <;> simp [h]

set_option maxHeartbeats 1000000 in
theorem stampAt_le_iff (d1 d2 : PyDatetime) (h1 : validDT d1) (h2 : validDT d2)
    (hm1 : 0 < d1.microsecond) (hm2 : 0 < d2.microsecond) :
    (strLe (stampAt d1) (stampAt d2) = true) ↔ dtKey d1 ≤ dtKey d2 := by
  obtain ⟨hy1, hmo1, hd1, hh1, hmi1, hs1, hus1⟩ := h1
  obtain ⟨hy2, hmo2, hd2x, hh2, hmi2, hs2, hus2⟩ := h2
  have hne1 : ¬ d1.microsecond = 0 := by omega
  have hne2 : ¬ d2.microsecond = 0 := by omega
  have p2 : (100 : Nat) = 10 ^ 2 := by norm_num
  have p4 : (10000 : Nat) = 10 ^ 4 := by norm_num
  have p6 : (1000000 : Nat) = 10 ^ 6 := by norm_num
  have hz : lexLe ['Z'] ['Z'] = true := rfl
  simp only [strLe, stampAt, data_mk, pyIsoformat, if_neg hne1, if_neg hne2,
    List.append_assoc, List.cons_append, List.nil_append]
  rw [padLex 4 _ _ _ _ (p4 ▸ hy1) (p4 ▸ hy2), lexLe_cons_same,
    padLex 2 _ _ _ _ (p2 ▸ hmo1) (p2 ▸ hmo2), lexLe_cons_same,
    padLex 2 _ _ _ _ (p2 ▸ hd1) (p2 ▸ hd2x), lexLe_cons_same,
    padLex 2 _ _ _ _ (p2 ▸ hh1) (p2 ▸ hh2), lexLe_cons_same,
    padLex 2 _ _ _ _ (p2 ▸ hmi1) (p2 ▸ hmi2), lexLe_cons_same,
    padLex 2 _ _ _ _ (p2 ▸ hs1) (p2 ▸ hs2), lexLe_cons_same,
    padLex 6 _ _ _ _ (p6 ▸ hus1) (p6 ▸ hus2), hz]
  simp only [dtKey, iteT, iteF, eq_self_iff_true, and_true]
  omega

theorem stampAt_length (d : PyDatetime) (hm : 0 < d.microsecond) :
    (stampAt d).length = 27 := by
  have hne : ¬ d.microsecond = 0 := by omega
  show (stampAt d).data.length = 27
  simp [stampAt, data_mk, pyIsoformat, if_neg hne, padNum_length]

/-- Every row present after a `saveItemsGo` run either was in the initial
table or carries a stamp of the clock. -/
theorem saveItemsGo_stamps (clock : Nat → PyDatetime) :
    ∀ (items : List ItemRec) (tbl : List Row) (i n : Nat),
      ∀ r ∈ (saveItemsGo clock tbl i n items).1,
        r ∈ tbl ∨ ∃ k, r.fetched_at = stampAt (clock k) := by
  intro items
  induction items with
  | nil => intro tbl i n r hr; exact Or.inl hr
  | cons it rest ih =>
    intro tbl i n r hr
    cases hg : it.guid with
    | some g =>
      simp only [saveItemsGo, hg] at hr
      by_cases hany : tbl.any (fun r => r.guid = some g) = true
      · rw [if_pos hany] at hr
        exact ih tbl (i + 1) n r hr
      · rw [if_neg hany] at hr
        rcases ih _ (i + 1) (n + 1) r hr with hmem | hst
        · rcases List.mem_append.mp hmem with h | h
          · exact Or.inl h
          · simp only [List.mem_singleton] at h
            exact Or.inr ⟨i, by rw [h]; rfl⟩
        · exact Or.inr hst
    | none =>
      simp only [saveItemsGo, hg] at hr
      rcases ih _ (i + 1) (n + 1) r hr with hmem | hst
      · rcases List.mem_append.mp hmem with h | h
        · exact Or.inl h
        · simp only [List.mem_singleton] at h
          exact Or.inr ⟨i, by rw [h]; rfl⟩
      · exact Or.inr hst

/-- The table grown by `saveItemsGo` stays chained in `fetched_at` order,
provided every pre-existing row is bounded by the next stamp and the clock
stamps are non-decreasing in string order. -/
theorem saveItemsGo_chain (clock : Nat → PyDatetime)
    (hmono : ∀ i j, i ≤ j →
      strLe (stampAt (clock i)) (stampAt (clock j)) = true) :
    ∀ (items : List ItemRec) (tbl : List Row) (i n : Nat),
      List.Chain' (fun a b : Row => strLe a.fetched_at b.fetched_at = true) tbl →
      (∀ r ∈ tbl, strLe r.fetched_at (stampAt (clock i)) = true) →
      List.Chain' (fun a b : Row => strLe a.fetched_at b.fetched_at = true)
        (saveItemsGo clock tbl i n items).1 := by
  intro items
  induction items with
  | nil => intro tbl i n hchain _; exact hchain
  | cons it rest ih =>
    intro tbl i n hchain hbound
    have hbound' : ∀ r ∈ tbl, strLe r.fetched_at (stampAt (clock (i + 1))) = true :=
      fun r hr => strLe_trans _ _ _ (hbound r hr) (hmono i (i + 1) (by omega))
    have hinsert :
        List.Chain' (fun a b : Row => strLe a.fetched_at b.fetched_at = true)
          (tbl ++ [mkRow it (stampAt (clock i))]) := by
      rw [List.chain'_append]
      refine ⟨hchain, List.chain'_singleton _, ?_⟩
      intro x hx y hy
      simp only [List.head?_cons, Option.mem_def, Option.some.injEq] at hy
      have hxm : x ∈ tbl := List.mem_of_mem_getLast? hx
      rw [← hy]
      exact hbound x hxm
    have hboundins :
        ∀ r ∈ tbl ++ [mkRow it (stampAt (clock i))],
          strLe r.fetched_at (stampAt (clock (i + 1))) = true := by
      intro r hr
      rcases List.mem_append.mp hr with h | h
      · exact hbound' r h
      · simp only [List.mem_singleton] at h
        rw [h]
        exact hmono i (i + 1) (by omega)
    cases hg : it.guid with
    | some g =>
      simp only [saveItemsGo, hg]
      by_cases hany : tbl.any (fun r => r.guid = some g) = true
      · rw [if_pos hany]
        exact ih tbl (i + 1) n hchain hbound'
      · rw [if_neg hany]
        exact ih _ (i + 1) (n + 1) hinsert hboundins
    | none =>
      simp only [saveItemsGo, hg]
      exact ih _ (i + 1) (n + 1) hinsert hboundins

/-- C9 (corrected): with the microsecond field non-zero — the overwhelmingly
common case for `datetime.utcnow()`, but *not* guaranteed — every stamp the
store assigns is the fixed-width 27-character `YYYY-MM-DDTHH:MM:SS.ffffffZ`
string, string comparison of stamps agrees exactly with temporal order, and
the rows written by `save_items` within one run under a monotone clock have
non-decreasing `fetched_at` strings.  When the microsecond field is zero,
`isoformat()` omits the fractional part, the stamp is 20 characters, and
string order disagrees with temporal order (see the counterexample). -/
theorem C9_stamp_format_and_order (clock : Nat → PyDatetime)
    (hv : ∀ i, validDT (clock i)) (hm : ∀ i, 0 < (clock i).microsecond)
    (hmono : ∀ i j, i ≤ j → dtKey (clock i) ≤ dtKey (clock j))
    (items : List ItemRec) :
    (∀ i j, strLe (stampAt (clock i)) (stampAt (clock j)) = true ↔
      dtKey (clock i) ≤ dtKey (clock j)) ∧
    (∀ r ∈ (save_items [] items clock).1, r.fetched_at.length = 27) ∧
    List.Chain' (fun a b : Row => strLe a.fetched_at b.fetched_at = true)
      ((save_items [] items clock).1) := by
  have hiff : ∀ i j, strLe (stampAt (clock i)) (stampAt (clock j)) = true ↔
      dtKey (clock i) ≤ dtKey (clock j) :=
    fun i j => stampAt_le_iff (clock i) (clock j) (hv i) (hv j) (hm i) (hm j)
  refine ⟨hiff, ?_, ?_⟩
  · intro r hr
    rcases saveItemsGo_stamps clock items [] 0 0 r hr with hmem | ⟨k, hk⟩
    · simp at hmem
    · rw [hk]
      exact stampAt_length (clock k) (hm k)
  · exact saveItemsGo_chain clock
      (fun i j hij => (hiff i j).mpr (hmono i j hij)) items [] 0 0
      List.chain'_nil (by intro r hr; simp at hr)

/-- Witness for C9: a constant (hence monotone) microsecond-bearing clock
over a two-item batch. -/
theorem C9_witness :
    (∀ r ∈ (save_items []
        [⟨some "a", none, none, none, none⟩, ⟨some "b", none, none, none, none⟩]
        (fun _ => ⟨2025, 1, 1, 0, 0, 0, 1⟩)).1, r.fetched_at.length = 27) ∧
    List.Chain' (fun a b : Row => strLe a.fetched_at b.fetched_at = true)
      ((save_items []
        [⟨some "a", none, none, none, none⟩, ⟨some "b", none, none, none, none⟩]
        (fun _ => ⟨2025, 1, 1, 0, 0, 0, 1⟩)).1) :=
 by
  have hval : validDT ⟨2025, 1, 1, 0, 0, 0, 1⟩ := by decide
  have hmic : (0 : Nat) < (1 : Nat) := by decide
  exact ⟨(C9_stamp_format_and_order (fun _ => ⟨2025, 1, 1, 0, 0, 0, 1⟩)
      (fun _ => hval) (fun _ => hmic) (fun _ _ _ => le_refl _) _).2.1,
    (C9_stamp_format_and_order (fun _ => ⟨2025, 1, 1, 0, 0, 0, 1⟩)
      (fun _ => hval) (fun _ => hmic) (fun _ _ _ => le_refl _) _).2.2⟩

/-- Counterexample to C9 as frozen: at microsecond zero the stamp drops the
fractional part, so within a single run a store can assign
`2025-10-25T00:00:00Z` (20 characters) and then, one microsecond later,
`2025-10-25T00:00:00.000001Z` (27 characters): the format is not
fixed-width, the two consecutively assigned stamps are lexicographically
*decreasing*, and string comparison contradicts temporal order. -/
theorem C9_counterexample :
    ((save_items []
        [⟨some "a", none, none, none, none⟩, ⟨some "b", none, none, none, none⟩]
        (fun i => if i = 0 then ⟨2025, 10, 25, 0, 0, 0, 0⟩
                  else ⟨2025, 10, 25, 0, 0, 0, 1⟩)).1.map Row.fetched_at) =
      ["2025-10-25T00:00:00Z", "2025-10-25T00:00:00.000001Z"] ∧
    dtKey ⟨2025, 10, 25, 0, 0, 0, 0⟩ ≤ dtKey ⟨2025, 10, 25, 0, 0, 0, 1⟩ ∧
    strLe "2025-10-25T00:00:00Z" "2025-10-25T00:00:00.000001Z" = false ∧
    ("2025-10-25T00:00:00Z" : String).length ≠ 27 := by
  refine ⟨by decide, by decide, by decide, by decide⟩

/-! ## C5: conditional idempotence of the summary cleaner -/

theorem scanAux_id (m : List Char → Option Nat) :
    ∀ (fuel : Nat) (l : List Char), (∀ t ∈ l.tails, m t = none) →
      scanAux m fuel l = l := by
  intro fuel
  induction fuel with
  | zero => intro l _; rfl
  | succ fuel ih =>
    intro l hnone
    cases l with
    | nil => rfl
    | cons c rest =>
      have hself : m (c :: rest) = none := by
        apply hnone
        exact (List.mem_tails _ _).mpr (List.suffix_refl _)
      have hrest : ∀ t ∈ rest.tails, m t = none := by
        intro t ht
        apply hnone
        rw [List.mem_tails] at ht ⊢
        exact ht.trans (List.suffix_cons c rest)
      simp only [scanAux, hself]
      rw [ih rest hrest]

theorem scanSub_id (m : List Char → Option Nat) (l : List Char)
    (h : ∀ t ∈ l.tails, m t = none) : scanSub m l = l :=
  scanAux_id m l.length l h

theorem applyMatchers_id (ms : List (List Char → Option Nat)) (l : List Char)
    (h : ∀ p ∈ ms, ∀ t ∈ l.tails, p t = none) : applyMatchers ms l = l := by
  induction ms with
  | nil => rfl
  | cons p ms ih =>
    simp only [applyMatchers, List.foldl_cons]
    rw [scanSub_id p l (h p (by simp))]
    exact ih fun q hq => h q (by simp [hq])

theorem mTag_none_of_no_lt (l : List Char) (h : '<' ∉ l) :
    ∀ t ∈ l.tails, mTag t = none := by
  intro t ht
  rw [List.mem_tails] at ht
  cases t with
  | nil => rfl
  | cons c t' =>
    have hc : c ∈ l := ht.subset (by simp)
    have hne : ¬ c = '<' := fun e => h (e ▸ hc)
    simp [mTag, hne]

theorem unescapeAux_id : ∀ (fuel : Nat) (l : List Char), '&' ∉ l →
    unescapeAux fuel l = l := by
  intro fuel
  induction fuel with
  | zero => intro l _; rfl
  | succ fuel ih =>
    intro l hamp
    cases l with
    | nil => rfl
    | cons c rest =>
      have hc : ¬ c = '&' := fun e => hamp (e ▸ List.mem_cons_self c rest)
      have hrest : '&' ∉ rest := fun hm => hamp (List.mem_cons_of_mem c hm)
      simp only [unescapeAux, if_neg hc]
      rw [ih rest hrest]

theorem unescape_id (l : List Char) (h : '&' ∉ l) : unescape l = l :=
  unescapeAux_id l.length l h

/-! ### Whitespace-collapse normal forms -/

/-- No whitespace character other than a plain space occurs. -/
def SpacesPlain (l : List Char) : Prop :=
  ∀ c ∈ l, isWs c = true → c = ' '

/-- No two adjacent whitespace characters occur. -/
def NoWsRun (l : List Char) : Prop :=
  l.Chain' fun a b => ¬ (isWs a = true ∧ isWs b = true)

/-- The head, if any, is not whitespace. -/
def HeadSolid (l : List Char) : Prop :=
  ∀ c ∈ l.head?, isWs c = false

theorem collapseAux_spacesPlain (l : List Char) :
    ∀ b, SpacesPlain (collapseAux b l) := by
  induction l with
  | nil => intro b c hc _; cases hc
  | cons x xs ih =>
    intro b c hc hws
    by_cases hx : isWs x = true
    · simp only [collapseAux, if_pos hx] at hc
      cases b with
      | true => exact ih true c hc hws
      | false =>
        rcases List.mem_cons.mp hc with h | h
        · exact h
        · exact ih true c h hws
    · simp only [collapseAux, if_neg hx] at hc
      rcases List.mem_cons.mp hc with h | h
      · exact absurd (h ▸ hws) (by simpa using hx)
      · exact ih false c h hws

theorem collapseAux_true_headSolid (l : List Char) :
    HeadSolid (collapseAux true l) := by
  induction l with
  | nil => intro c hc; cases hc
  | cons x xs ih =>
    intro c hc
    by_cases hx : isWs x = true
    · simp only [collapseAux, if_pos hx] at hc
      exact ih c hc
    · simp only [collapseAux, if_neg hx, List.head?_cons, Option.mem_def,
        Option.some.injEq] at hc
      rw [← hc]
      simpa using hx

theorem collapseAux_noWsRun (l : List Char) : ∀ b, NoWsRun (collapseAux b l) := by
  induction l with
  | nil => intro b; exact List.chain'_nil
  | cons x xs ih =>
    intro b
    by_cases hx : isWs x = true
    · cases b with
      | true => simpa [collapseAux, hx] using ih true
      | false =>
        simp only [collapseAux, if_pos hx, Bool.false_eq_true, if_false]
        refine List.chain'_cons'.mpr ⟨?_, ih true⟩
        intro y hy
        have := collapseAux_true_headSolid xs y hy
        intro hcon
        rw [this] at hcon
        exact absurd hcon.2 (by simp)
    · simp only [collapseAux, if_neg hx]
      refine List.chain'_cons'.mpr ⟨?_, ih false⟩
      intro y _ hcon
      exact absurd hcon.1 (by simpa using hx)

theorem collapseAux_fix (l : List Char) (hplain : SpacesPlain l)
    (hrun : NoWsRun l) :
    collapseAux false l = l ∧ (HeadSolid l → collapseAux true l = l) := by
  induction l with
  | nil => exact ⟨rfl, fun _ => rfl⟩
  | cons x xs ih =>
    have hplain' : SpacesPlain xs := fun c hc => hplain c (List.mem_cons_of_mem x hc)
    have hrun' : NoWsRun xs := hrun.tail
    obtain ⟨ihf, iht⟩ := ih hplain' hrun'
    by_cases hx : isWs x = true
    · have hx' : x = ' ' := hplain x (List.mem_cons_self x xs) hx
      have hhead : HeadSolid xs := by
        intro c hc
        have hrel := (List.chain'_cons'.mp hrun).1 c hc
        by_contra hcon
        exact hrel ⟨hx, by simpa using hcon⟩
      constructor
      · simp only [collapseAux, if_pos hx, Bool.false_eq_true, if_false]
        rw [iht hhead, hx']
      · intro hsolid
        have := hsolid x (by simp)
        rw [this] at hx
        cases hx
    · constructor
      · simp only [collapseAux, if_neg hx]
        rw [ihf]
      · intro _
        simp only [collapseAux, if_neg hx]
        rw [ihf]

theorem head_dropWhile (p : Char → Bool) (l : List Char) :
    ∀ c ∈ (l.dropWhile p).head?, p c = false := by
  induction l with
  | nil => intro c hc; cases hc
  | cons x xs ih =>
    intro c hc
    by_cases hx : p x = true
    · rw [List.dropWhile_cons_of_pos hx] at hc
      exact ih c hc
    · rw [List.dropWhile_cons_of_neg hx] at hc
      simp only [List.head?_cons, Option.mem_def, Option.some.injEq] at hc
      rw [← hc]
      simpa using hx

theorem dropWhile_idem (p : Char → Bool) (l : List Char) :
    (l.dropWhile p).dropWhile p = l.dropWhile p := by
  cases hd : l.dropWhile p with
  | nil => rfl
  | cons c t =>
    have hc : p c = false := by
      have := head_dropWhile p l
      rw [hd] at this
      exact this c (by simp)
    rw [List.dropWhile_cons_of_neg (by simp [hc])]

theorem dropTrail_prefix_self (l : List Char) : dropTrail l <+: l := by
  have h1 : (dropTrail l).reverse <:+ l.reverse := by
    simp only [dropTrail, List.reverse_reverse]
    exact List.dropWhile_suffix _
  exact List.reverse_suffix.mp h1

theorem dropTrail_subset (l : List Char) : ∀ c ∈ dropTrail l, c ∈ l :=
  fun _ hc => (dropTrail_prefix_self l).subset hc

theorem stripEnds_subset (l : List Char) : ∀ c ∈ stripEnds l, c ∈ l :=
  fun c hc =>
    (List.dropWhile_suffix _).subset (dropTrail_subset (dropLead l) c hc)

theorem prefix_head_eq (y x : List Char) (h : y <+: x) (hy : y ≠ []) :
    y.head? = x.head? := by
  obtain ⟨t, ht⟩ := h
  cases y with
  | nil => exact absurd rfl hy
  | cons a ys => rw [← ht]; rfl

theorem dropLead_of_headSolid (l : List Char) (h : HeadSolid l) :
    dropLead l = l := by
  cases l with
  | nil => rfl
  | cons c rest =>
    have := h c (by simp)
    exact List.dropWhile_cons_of_neg (by simp [this])

theorem dropLead_headSolid (l : List Char) : HeadSolid (dropLead l) :=
  fun c hc => head_dropWhile isWs l c hc

theorem dropTrail_headSolid (l : List Char) (h : HeadSolid l) :
    HeadSolid (dropTrail l) := by
  intro c hc
  cases he : dropTrail l with
  | nil => rw [he] at hc; cases hc
  | cons a t =>
    rw [he] at hc
    have hhead : (dropTrail l).head? = l.head? :=
      prefix_head_eq _ _ (dropTrail_prefix_self l) (by rw [he]; simp)
    rw [he] at hhead
    simp only [List.head?_cons, Option.mem_def, Option.some.injEq] at hc
    apply h
    rw [← hhead, ← hc]
    rfl

theorem stripEnds_headSolid (l : List Char) : HeadSolid (stripEnds l) :=
  dropTrail_headSolid (dropLead l) (dropLead_headSolid l)

theorem dropTrail_idem (l : List Char) : dropTrail (dropTrail l) = dropTrail l := by
  simp only [dropTrail, List.reverse_reverse]
  rw [dropWhile_idem]

theorem stripEnds_idem (l : List Char) : stripEnds (stripEnds l) = stripEnds l := by
  have h1 : dropLead (stripEnds l) = stripEnds l :=
    dropLead_of_headSolid _ (stripEnds_headSolid l)
  show dropTrail (dropLead (stripEnds l)) = stripEnds l
  rw [h1]
  show dropTrail (dropTrail (dropLead l)) = stripEnds l
  rw [dropTrail_idem]
  rfl

theorem stripEnds_spacesPlain (l : List Char) (h : SpacesPlain l) :
    SpacesPlain (stripEnds l) :=
  fun c hc hws => h c (stripEnds_subset l c hc) hws

theorem stripEnds_noWsRun (l : List Char) (h : NoWsRun l) :
    NoWsRun (stripEnds l) := by
  have h1 : NoWsRun (dropLead l) := h.suffix (List.dropWhile_suffix _)
  exact h1.prefix (dropTrail_prefix_self _)

/-- The collapse-then-strip normalisation of the cleaner is idempotent. -/
theorem csIdem (X : List Char) :
    stripEnds (collapseAux false (stripEnds (collapseAux false X))) =
      stripEnds (collapseAux false X) := by
  have hp : SpacesPlain (collapseAux false X) := collapseAux_spacesPlain X false
  have hr : NoWsRun (collapseAux false X) := collapseAux_noWsRun X false
  have hfix : collapseAux false (stripEnds (collapseAux false X)) =
      stripEnds (collapseAux false X) :=
    (collapseAux_fix _ (stripEnds_spacesPlain _ hp) (stripEnds_noWsRun _ hr)).1
  rw [hfix, stripEnds_idem]

theorem ite_isEmpty_some_inv (L : List Char) (r : String)
    (h : (if L.isEmpty then none else some (String.mk L)) = some r) :
    r.data = L ∧ r.data ≠ [] := by
  split at h
  · cases h
  · next hne =>
    have hr := (Option.some.inj h).symm
    have hrd : r.data = L := by rw [hr]
    refine ⟨hrd, ?_⟩
    intro hnil
    have hL : L = [] := by rw [← hrd, hnil]
    rw [hL] at hne
    simp at hne

/-- Inversion of a successful clean: either the input was empty (and came
back unchanged), or the result is the non-empty output of the pipeline. -/
theorem clean_summary_some_inv (s r : String)
    (h : clean_summary (some s) = some r) :
    (s = "" ∧ r = "") ∨
    (r.data = stripEnds (collapseAux false (unescape
        (scanSub mTag (applyMatchers exporterMatchers s.data)))) ∧
      r.data ≠ []) := by
  by_cases hs : s = ""
  · left
    subst hs
    refine ⟨rfl, ?_⟩
    simpa [clean_summary] using h.symm
  · right
    simp only [clean_summary, if_neg hs] at h
    exact ite_isEmpty_some_inv _ r h

/-- C5 (corrected): the cleaner is *not* idempotent in general — removing a
boilerplate phrase, stripping a tag or decoding an entity can create a new
boilerplate phrase, tag or entity that only a second pass would remove (see
the counterexample).  Idempotence does hold whenever the cleaned result is
itself free of matchable material: no boilerplate-pattern match at any
position, no `<` and no `&`. -/
theorem C5_cleaner_conditionally_idempotent (s : String)
    (hm : ∀ p ∈ exporterMatchers, ∀ t ∈ (cleanedList s).tails, p t = none)
    (hlt : '<' ∉ cleanedList s) (hamp : '&' ∉ cleanedList s) :
    clean_summary (clean_summary (some s)) = clean_summary (some s) := by
  cases hc : clean_summary (some s) with
  | none => rfl
  | some r =>
    have hdata : cleanedList s = r.data := by
      simp [cleanedList, hc]
    rw [hdata] at hm hlt hamp
    rcases clean_summary_some_inv s r hc with ⟨_, hr⟩ | ⟨hrd, hne⟩
    · subst hr
      rfl
    · have hrne : r ≠ "" := by
        intro e
        apply hne
        rw [e]
      show clean_summary (some r) = some r
      simp only [clean_summary, if_neg hrne]
      rw [applyMatchers_id _ _ hm,
        scanSub_id mTag r.data (mTag_none_of_no_lt r.data hlt),
        unescape_id r.data hamp, hrd, csIdem, ← hrd]
      rw [if_neg (by simpa using hne)]

/-- Witness for C5 at an input whose cleaned value is inert. -/
theorem C5_witness :
    clean_summary (clean_summary (some "hello")) = clean_summary (some "hello") :=
  C5_cleaner_conditionally_idempotent "hello" (by decide) (by decide) (by decide)

/-- Counterexample to C5 as frozen: removing `advertisement` from
`"iadvertisement agree"` creates the phrase `"i agree"` (after whitespace
collapse), which only a second pass removes — so `clean(clean(s)) = null`
while `clean(s) = "i agree"`. -/
theorem C5_counterexample :
    clean_summary (some "iadvertisement agree") = some "i agree" ∧
    clean_summary (some "i agree") = none ∧
    clean_summary (clean_summary (some "iadvertisement agree")) ≠
      clean_summary (some "iadvertisement agree") :=
  ⟨rfl, rfl, by decide⟩

end RssData
